import Mathlib

/-!
Verification of the `malloc_buf` crate (`src/lib.rs`): a shallow embedding
of `MallocBuffer<T>` and `MallocString` and proofs of the specified
properties.

Modelling conventions:
* A raw pointer is a `Nat` address; the null pointer is address `0`.
  The sentinel pointer `0x1` used by `Deref for MallocBuffer` is address `1`.
* Element memory is a function `mem : Nat → T` giving the value stored at
  each (element-indexed) address; byte memory is `mem : Nat → Nat`.
* Side effects of `Drop` are recorded as an explicit event trace:
  `Event.destroy i v` is the `ptr::read(item)` of the element at index `i`
  (its value being `v`), and `Event.free a` is the call `libc::free(a)`.
-/

namespace MallocBuf

/-- Trace events emitted while dropping a buffer: per-element destruction
(`ptr::read`) and the `libc::free` call (recording the address passed). -/
inductive Event (T : Type) where
  | destroy (idx : Nat) (val : T)
  | free (addr : Nat)
  deriving DecidableEq, Repr

/-- `true` exactly on `Event.free` events. -/
def Event.isFree {T : Type} : Event T → Bool
  | .free _ => true
  | .destroy _ _ => false

/-- `true` exactly on `Event.destroy` events. -/
def Event.isDestroy {T : Type} : Event T → Bool
  | .free _ => false
  | .destroy _ _ => true

/-- `pub struct MallocBuffer<T> { ptr: *mut T, len: usize }`.
The type parameter is phantom here because element values live in the
separately-passed memory. -/
structure MallocBuffer (T : Type) where
  ptr : Nat
  len : Nat
  deriving DecidableEq, Repr

/-- `MallocBuffer::new(ptr, len)`:
`if len > 0 && ptr.is_null() { None } else { Some(MallocBuffer { ptr, len }) }`. -/
def MallocBuffer.new (T : Type) (ptr : Nat) (len : Nat) :
    Option (MallocBuffer T) :=
  if len > 0 ∧ ptr = 0 then none
  else some { ptr := ptr, len := len }

/-- The base pointer used by `Deref for MallocBuffer`:
`if self.len == 0 && self.ptr.is_null() { 0x1 as *const T } else { self.ptr }`. -/
def MallocBuffer.derefBase {T : Type} (buf : MallocBuffer T) : Nat :=
  if buf.len = 0 ∧ buf.ptr = 0 then 1 else buf.ptr

/-- `Deref for MallocBuffer`: the slice
`slice::from_raw_parts(derefBase, self.len)`, read out of memory as the
list of its `len` elements in index order. -/
def MallocBuffer.deref {T : Type} (buf : MallocBuffer T) (mem : Nat → T) :
    List T :=
  (List.range buf.len).map (fun i => mem (buf.derefBase + i))

/-- `Drop for MallocBuffer`: `for item in self.iter() { ptr::read(item); }`
(one destruction event per element of the deref slice, in ascending index
order) followed by `libc::free(self.ptr as *mut c_void)` (unconditionally,
on the stored pointer). -/
def MallocBuffer.drop {T : Type} (buf : MallocBuffer T) (mem : Nat → T) :
    List (Event T) :=
  ((List.range buf.len).map
      (fun i => Event.destroy i (mem (buf.derefBase + i))))
    ++ [Event.free buf.ptr]

/-- A UTF-8 continuation byte: `0x80 ..= 0xBF`. -/
def isCont (b : Nat) : Bool := 0x80 ≤ b && b ≤ 0xBF

/-- UTF-8 validity of a byte sequence, as checked by Rust's
`str::from_utf8` (`core::str` validation): ASCII bytes stand alone;
`C2..DF` take one continuation byte; `E0`/`E1..EC,EE,EF`/`ED` take two
continuation bytes with the restricted first-continuation ranges that
exclude overlong encodings and surrogates; `F0`/`F1..F3`/`F4` take three
with the ranges that keep scalars in `U+10000 ..= U+10FFFF`. -/
def validUtf8 : List Nat → Bool
  | [] => true
  | b :: rest =>
    if b ≤ 0x7F then validUtf8 rest
    else
      match rest with
      | [] => false
      | c1 :: r1 =>
        if 0xC2 ≤ b && b ≤ 0xDF then isCont c1 && validUtf8 r1
        else
          match r1 with
          | [] => false
          | c2 :: r2 =>
            if b = 0xE0 then
              (0xA0 ≤ c1 && c1 ≤ 0xBF) && isCont c2 && validUtf8 r2
            else if (0xE1 ≤ b && b ≤ 0xEC) || b = 0xEE || b = 0xEF then
              isCont c1 && isCont c2 && validUtf8 r2
            else if b = 0xED then
              (0x80 ≤ c1 && c1 ≤ 0x9F) && isCont c2 && validUtf8 r2
            else
              match r2 with
              | [] => false
              | c3 :: r3 =>
                if b = 0xF0 then
                  (0x90 ≤ c1 && c1 ≤ 0xBF) && isCont c2 && isCont c3
                    && validUtf8 r3
                else if 0xF1 ≤ b && b ≤ 0xF3 then
                  isCont c1 && isCont c2 && isCont c3 && validUtf8 r3
                else if b = 0xF4 then
                  (0x80 ≤ c1 && c1 ≤ 0x8F) && isCont c2 && isCont c3
                    && validUtf8 r3
                else false

/-- `CStr::from_ptr(ptr).to_bytes()`: the bytes stored from `ptr` up to
(excluding) the first nul byte. `fuel` bounds the scan; it models the
precondition that a nul terminator exists within the allocation (the Rust
call has undefined behavior otherwise). -/
def cstrBytes (mem : Nat → Nat) (ptr : Nat) : Nat → List Nat
  | 0 => []
  | fuel + 1 =>
    let b := mem ptr
    if b = 0 then [] else b :: cstrBytes mem (ptr + 1) fuel

/-- `pub struct MallocString { data: MallocBuffer<u8> }`. -/
structure MallocString where
  data : MallocBuffer Nat
  deriving DecidableEq, Repr

/-- `MallocString::new(ptr)`: `None` on a null pointer; otherwise scan the
C string, check UTF-8, and on success adopt `bytes.len() + 1` bytes
(`// len + 1 to account for the nul byte`). `fuel` bounds the nul scan. -/
def MallocString.new (fuel : Nat) (mem : Nat → Nat) (ptr : Nat) :
    Option MallocString :=
  if ptr = 0 then none
  else
    let bytes := cstrBytes mem ptr fuel
    if validUtf8 bytes then
      some { data := { ptr := ptr, len := bytes.length + 1 } }
    else none

/-- `Deref for MallocString`: `&self.data[..self.data.len - 1]`, i.e. the
first `len - 1` elements of the deref slice of `data` (the nul terminator
excluded), returned as bytes (`from_utf8_unchecked` does not alter them). -/
def MallocString.deref (s : MallocString) (mem : Nat → Nat) : List Nat :=
  (s.data.deref mem).take (s.data.len - 1)

/-- Dropping a `MallocString` drops its `data` field, so its trace is the
trace of `Drop for MallocBuffer` on `data`. -/
def MallocString.drop (s : MallocString) (mem : Nat → Nat) :
    List (Event Nat) :=
  s.data.drop mem

/-- Modelled from the spec: the Owned Cell specialization (spec §2, §4.1)
is not present in `src/lib.rs` (the repository's src holds only the Array
and Text shapes); modelled faithfully to the spec's words: construction
records the address with no validation, the view is an immutable reference
to the single owned value, and release runs the value's destructor in
place then frees the backing allocation. -/
structure Malloc (T : Type) where
  ptr : Nat
  deriving DecidableEq, Repr

/-- Modelled from the spec: `Construct(address)` for Owned Cell — "No
validation performed"; it always succeeds, recording the address. -/
def Malloc.new (T : Type) (ptr : Nat) : Malloc T := { ptr := ptr }

/-- Modelled from the spec: `View()` for Owned Cell — an immutable
reference to the owned value, i.e. the value stored at the address. -/
def Malloc.deref {T : Type} (c : Malloc T) (mem : Nat → T) : T := mem c.ptr

/-- Modelled from the spec: `Release` for Owned Cell — "runs the value's
destructor in place, then frees the backing allocation". -/
def Malloc.drop {T : Type} (c : Malloc T) (mem : Nat → T) : List (Event T) :=
  [Event.destroy 0 (mem c.ptr), Event.free c.ptr]

/-- `mem` stores the values `vs`, contiguously and in order, starting at
address `ptr`. -/
abbrev memStores {T : Type} (mem : Nat → T) (ptr : Nat) (vs : List T) :
    Prop :=
  ∀ i, (hi : i < vs.length) → mem (ptr + i) = vs.get ⟨i, hi⟩

/-- `mem` lays out the C string with content bytes `b` at `ptr`: the bytes
of `b` (none of which is nul) followed by the nul terminator. -/
abbrev strLayout (mem : Nat → Nat) (ptr : Nat) (b : List Nat) : Prop :=
  memStores mem ptr b ∧ mem (ptr + b.length) = 0 ∧ 0 ∉ b

theorem map_range_eq_of_get {T : Type} (vs : List T) (f : Nat → T)
    (h : ∀ i, (hi : i < vs.length) → f i = vs.get ⟨i, hi⟩) :
    (List.range vs.length).map f = vs := by
  apply List.ext_get
  · simp
  · intro n h1 h2
    simp only [List.get_eq_getElem, List.getElem_map, List.getElem_range]
    simp only [List.length_map, List.length_range] at h1
    rw [h n h1]
    simp

theorem cstrBytes_eq (mem : Nat → Nat) (b : List Nat) :
    ∀ ptr fuel, strLayout mem ptr b → b.length + 1 ≤ fuel →
      cstrBytes mem ptr fuel = b := by
  induction b with
  | nil =>
    intro ptr fuel hlay hfuel
    obtain ⟨-, hnul, -⟩ := hlay
    obtain ⟨f, rfl⟩ : ∃ f, fuel = f + 1 :=
      ⟨fuel - 1, by omega⟩
    simp only [List.length_nil, Nat.add_zero] at hnul
    simp [cstrBytes, hnul]
  | cons a t ih =>
    intro ptr fuel hlay hfuel
    obtain ⟨hmem, hnul, hz⟩ := hlay
    obtain ⟨f, rfl⟩ : ∃ f, fuel = f + 1 :=
      ⟨fuel - 1, by omega⟩
    have ha : mem ptr = a := by
      have := hmem 0 (by simp)
      simpa using this
    have haz : a ≠ 0 := by
      intro h0
      exact hz (by simp [← h0])
    have ht : cstrBytes mem (ptr + 1) f = t := by
      apply ih
      · refine ⟨?_, ?_, ?_⟩
        · intro i hi
          have := hmem (i + 1) (by simpa using Nat.succ_lt_succ hi)
          simpa [Nat.add_assoc, Nat.add_comm 1 i] using this
        · have : ptr + 1 + t.length = ptr + (a :: t).length := by
            simp [Nat.add_assoc, Nat.add_comm 1 t.length]
          rw [this]
          exact hnul
        · intro h0
          exact hz (List.mem_cons_of_mem a h0)
      · simpa using Nat.le_of_succ_le_succ hfuel
    simp [cstrBytes, ha, haz, ht]

/-- Claim C1: Owned Array construction follows discipline (a): with
count 0 it succeeds whatever the address (recording it as given); with
positive count and a null address it fails (returning `none`, so no
ownership is taken and no buffer exists whose drop could emit a
deallocation call); with positive count and a non-null address it
succeeds with the address and count recorded as-is. -/
theorem mallocBuffer_new_discipline (T : Type) (ptr len : Nat) :
    (len = 0 →
      MallocBuffer.new T ptr len = some { ptr := ptr, len := len }) ∧
    (len > 0 → ptr = 0 → MallocBuffer.new T ptr len = none) ∧
    (len > 0 → ptr ≠ 0 →
      MallocBuffer.new T ptr len = some { ptr := ptr, len := len }) := by
  refine ⟨?_, ?_, ?_⟩ <;> intros <;> simp [MallocBuffer.new] <;> omega

theorem mallocBuffer_new_discipline_witness :
    MallocBuffer.new Nat 0 0 = some { ptr := 0, len := 0 } ∧
    MallocBuffer.new Nat 0 7 = none ∧
    MallocBuffer.new Nat 5 3 = some { ptr := 5, len := 3 } :=
  ⟨(mallocBuffer_new_discipline Nat 0 0).1 rfl,
   (mallocBuffer_new_discipline Nat 0 7).2.1 (by decide) rfl,
   (mallocBuffer_new_discipline Nat 5 3).2.2 (by decide) (by decide)⟩

/-- Claim C2: for every successfully constructed buffer, the drop trace is
exactly `len` destruction events at ascending indices 0, 1, …, `len` − 1
(reading the elements stored at the original address), followed by the
single `free` call on the original address; in particular it holds exactly
`len` destruction events and exactly one deallocation call. -/
theorem mallocBuffer_drop_trace (T : Type) (ptr len : Nat)
    (buf : MallocBuffer T) (mem : Nat → T)
    (h : MallocBuffer.new T ptr len = some buf) :
    buf.drop mem =
      ((List.range len).map (fun i => Event.destroy i (mem (ptr + i))))
        ++ [Event.free ptr] ∧
    ((buf.drop mem).filter Event.isDestroy).length = len ∧
    (buf.drop mem).filter Event.isFree = [Event.free ptr] := by
  have hbuf : buf = { ptr := ptr, len := len } := by
    by_cases hc : len > 0 ∧ ptr = 0
    · simp [MallocBuffer.new, hc] at h
    · simp [MallocBuffer.new, hc] at h
      exact h.symm
  subst hbuf
  have hdrop :
      MallocBuffer.drop { ptr := ptr, len := len } mem =
        ((List.range len).map (fun i => Event.destroy i (mem (ptr + i))))
          ++ [Event.free ptr] := by
    rcases Nat.eq_zero_or_pos len with hlen | hlen
    · subst hlen
      simp [MallocBuffer.drop]
    · have hbase :
          MallocBuffer.derefBase (T := T) { ptr := ptr, len := len } =
            ptr := by
        simp [MallocBuffer.derefBase]
        omega
      simp [MallocBuffer.drop, hbase]
  refine ⟨hdrop, ?_, ?_⟩ <;> rw [hdrop] <;>
    simp [List.filter_append, List.filter_map, Event.isDestroy,
      Event.isFree, Function.comp_def]

theorem mallocBuffer_drop_trace_witness :
    MallocBuffer.new Nat 5 2 = some { ptr := 5, len := 2 } ∧
    MallocBuffer.drop (T := Nat) { ptr := 5, len := 2 } (fun a => a + 10) =
      [Event.destroy 0 15, Event.destroy 1 16, Event.free 5] := by
  have h := mallocBuffer_drop_trace Nat 5 2 { ptr := 5, len := 2 }
    (fun a => a + 10) (by decide)
  exact ⟨by decide, by rw [h.1]; rfl⟩

/-- Claim C3 counterexample: the claim says the sentinel path (null
address, count 0) makes zero deallocation calls, the free call being
skipped. In the code `Drop for MallocBuffer` calls
`libc::free(self.ptr)` unconditionally, so the drop trace of the buffer
constructed from (null, 0) contains one `free` event, not zero. -/
theorem mallocBuffer_sentinel_free_counterexample :
    MallocBuffer.new Nat 0 0 = some { ptr := 0, len := 0 } ∧
    ((MallocBuffer.drop (T := Nat) { ptr := 0, len := 0 }
        (fun _ => 0)).filter Event.isFree).length ≠ 0 := by decide

/-- Claim C3 (amended): for every Owned Array constructed on the sentinel
path (null address with count 0), release emits no destruction events and
exactly one deallocation call, passing the original null address — the
free call is not skipped, but under the C allocator contract free on a
null pointer deallocates nothing. -/
theorem mallocBuffer_sentinel_drop (T : Type) (buf : MallocBuffer T)
    (mem : Nat → T) (h : MallocBuffer.new T 0 0 = some buf) :
    buf.drop mem = [Event.free 0] ∧
    ((buf.drop mem).filter Event.isDestroy).length = 0 ∧
    ((buf.drop mem).filter Event.isFree).length = 1 := by
  have hbuf : buf = { ptr := 0, len := 0 } := by
    simp [MallocBuffer.new] at h
    exact h.symm
  subst hbuf
  refine ⟨?_, ?_, ?_⟩ <;>
    simp [MallocBuffer.drop, List.filter, Event.isDestroy, Event.isFree]

theorem mallocBuffer_sentinel_drop_witness :
    MallocBuffer.drop (T := Nat) { ptr := 0, len := 0 } (fun _ => 7) =
      [Event.free 0] :=
  (mallocBuffer_sentinel_drop Nat { ptr := 0, len := 0 } (fun _ => 7)
    (by decide)).1

/-- Claim C6: for every Owned Array constructed with count 0 (null or
non-null address), the view is the empty sequence (hence equal to any
other empty sequence of the same element type, and reading no memory at
all); in the null case the view base pointer is the sentinel address 1,
which is non-null. -/
theorem mallocBuffer_empty_view (T : Type) (ptr : Nat)
    (buf : MallocBuffer T) (mem : Nat → T)
    (h : MallocBuffer.new T ptr 0 = some buf) :
    buf.deref mem = ([] : List T) ∧
    (ptr = 0 → buf.derefBase = 1 ∧ buf.derefBase ≠ 0) := by
  have hbuf : buf = { ptr := ptr, len := 0 } := by
    simp [MallocBuffer.new] at h
    exact h.symm
  subst hbuf
  refine ⟨by simp [MallocBuffer.deref], ?_⟩
  intro hp
  subst hp
  simp [MallocBuffer.derefBase]

theorem mallocBuffer_empty_view_witness :
    MallocBuffer.deref (T := Nat) { ptr := 0, len := 0 } (fun _ => 3) =
      ([] : List Nat) ∧
    MallocBuffer.derefBase (T := Nat) { ptr := 0, len := 0 } = 1 := by
  have h := mallocBuffer_empty_view Nat 0 { ptr := 0, len := 0 }
    (fun _ => 3) (by decide)
  exact ⟨h.1, (h.2 rfl).1⟩

/-- Claim C10: for count 0 with a non-null address, construction succeeds
storing the given address as-is, the view base is that address (the
sentinel is not used) and the view is empty, and the drop trace is exactly
one deallocation call on that address — the empty-but-real allocation is
freed, not leaked. -/
theorem mallocBuffer_empty_nonnull (T : Type) (ptr : Nat) (mem : Nat → T)
    (hptr : ptr ≠ 0) :
    MallocBuffer.new T ptr 0 = some { ptr := ptr, len := 0 } ∧
    MallocBuffer.derefBase (T := T) { ptr := ptr, len := 0 } = ptr ∧
    MallocBuffer.deref (T := T) { ptr := ptr, len := 0 } mem =
      ([] : List T) ∧
    MallocBuffer.drop (T := T) { ptr := ptr, len := 0 } mem =
      [Event.free ptr] := by
  refine ⟨?_, ?_, ?_, ?_⟩ <;>
    simp [MallocBuffer.new, MallocBuffer.derefBase, MallocBuffer.deref,
      MallocBuffer.drop, hptr]

theorem mallocBuffer_empty_nonnull_witness :
    MallocBuffer.new Nat 5 0 = some { ptr := 5, len := 0 } ∧
    MallocBuffer.deref (T := Nat) { ptr := 5, len := 0 } (fun _ => 9) =
      ([] : List Nat) ∧
    MallocBuffer.drop (T := Nat) { ptr := 5, len := 0 } (fun _ => 9) =
      [Event.free 5] := by
  have h := mallocBuffer_empty_nonnull Nat 5 (fun _ => 9) (by decide)
  exact ⟨h.1, h.2.2.1, h.2.2.2⟩

/-- Claim C7: for every (address, count) with count positive, the address
non-null and `count` elements `vs` stored contiguously at the address,
construction succeeds and the resulting view has length `count` with its
elements equal, in order, to the stored values. -/
theorem mallocBuffer_view_elements (T : Type) (ptr len : Nat)
    (mem : Nat → T) (vs : List T) (hptr : ptr ≠ 0) (hlen : 0 < len)
    (hvs : vs.length = len) (hmem : memStores mem ptr vs) :
    ∃ buf, MallocBuffer.new T ptr len = some buf ∧
      buf.deref mem = vs ∧ (buf.deref mem).length = len := by
  refine ⟨{ ptr := ptr, len := len }, ?_, ?_, ?_⟩
  · simp [MallocBuffer.new, hptr]
  · have hbase :
        MallocBuffer.derefBase (T := T) { ptr := ptr, len := len } =
          ptr := by
      simp [MallocBuffer.derefBase]
      omega
    subst hvs
    simp only [MallocBuffer.deref, hbase]
    exact map_range_eq_of_get vs (fun i => mem (ptr + i)) hmem
  · simp [MallocBuffer.deref, hvs]

theorem mallocBuffer_view_elements_witness :
    ∃ buf, MallocBuffer.new Nat 5 3 = some buf ∧
      buf.deref (fun a => [1, 2, 3].getD (a - 5) 0) = [1, 2, 3] ∧
      (buf.deref (fun a => [1, 2, 3].getD (a - 5) 0)).length = 3 :=
  mallocBuffer_view_elements Nat 5 3 (fun a => [1, 2, 3].getD (a - 5) 0)
    [1, 2, 3] (by decide) (by decide) (by decide) (by decide)

/-- Claim C5: Owned Text construction fails on a null address; otherwise,
for a memory laying out content bytes `b` followed by the terminator (and
a scan bound covering them), it succeeds iff `b` is valid UTF-8, and
acceptance is atomic: on success the whole region (`b` plus terminator,
`b.length + 1` bytes from the given address) is adopted, on failure
nothing is (`none` is returned, so the caller keeps the address). -/
theorem mallocString_new_gate (mem : Nat → Nat) (ptr fuel : Nat)
    (b : List Nat) :
    (ptr = 0 → MallocString.new fuel mem ptr = none) ∧
    (ptr ≠ 0 → strLayout mem ptr b → b.length + 1 ≤ fuel →
      ((MallocString.new fuel mem ptr).isSome ↔ validUtf8 b = true) ∧
      (validUtf8 b = true →
        MallocString.new fuel mem ptr =
          some { data := { ptr := ptr, len := b.length + 1 } }) ∧
      (validUtf8 b = false → MallocString.new fuel mem ptr = none)) := by
  refine ⟨fun hp => by simp [MallocString.new, hp], ?_⟩
  intro hptr hlay hfuel
  have hb := cstrBytes_eq mem b ptr fuel hlay hfuel
  cases hv : validUtf8 b <;>
    simp [MallocString.new, hptr, hb, hv]

theorem mallocString_new_gate_witness :
    MallocString.new 4 (fun a => [104, 101, 121].getD (a - 5) 0) 5 =
      some { data := { ptr := 5, len := 4 } } ∧
    MallocString.new 2 (fun a => [255].getD (a - 5) 0) 5 = none ∧
    MallocString.new 4 (fun a => [104, 101, 121].getD (a - 5) 0) 0 =
      none := by
  refine ⟨?_, ?_, ?_⟩
  · exact ((mallocString_new_gate (fun a => [104, 101, 121].getD (a - 5) 0)
      5 4 [104, 101, 121]).2 (by decide) (by decide) (by decide)).2.1
      (by decide)
  · exact ((mallocString_new_gate (fun a => [255].getD (a - 5) 0)
      5 2 [255]).2 (by decide) (by decide) (by decide)).2.2 (by decide)
  · exact (mallocString_new_gate (fun a => [104, 101, 121].getD (a - 5) 0)
      0 4 [104, 101, 121]).1 rfl

/-- Claim C4: for every successfully constructed Owned Text over content
bytes `b` followed by the terminator, the visible view equals `b` exactly,
the owned (and freed) region length is `b.length + 1` (terminator
included), and the view length is the raw length minus one (terminator
excluded). -/
theorem mallocString_view (mem : Nat → Nat) (ptr fuel : Nat)
    (b : List Nat) (s : MallocString) (hptr : ptr ≠ 0)
    (hlay : strLayout mem ptr b) (hfuel : b.length + 1 ≤ fuel)
    (hnew : MallocString.new fuel mem ptr = some s) :
    s.deref mem = b ∧ s.data.len = b.length + 1 ∧
    (s.deref mem).length = s.data.len - 1 := by
  have hb := cstrBytes_eq mem b ptr fuel hlay hfuel
  by_cases hv : validUtf8 b
  · have hs : s = { data := { ptr := ptr, len := b.length + 1 } } := by
      simp [MallocString.new, hptr, hb, hv] at hnew
      exact hnew.symm
    subst hs
    have hbase :
        MallocBuffer.derefBase (T := Nat)
          { ptr := ptr, len := b.length + 1 } = ptr := by
      simp [MallocBuffer.derefBase]
    have hderef :
        MallocString.deref
            { data := { ptr := ptr, len := b.length + 1 } } mem = b := by
      simp only [MallocString.deref, MallocBuffer.deref, hbase,
        Nat.add_sub_cancel]
      rw [← List.map_take, List.take_range]
      have hmin : min b.length (b.length + 1) = b.length :=
        Nat.min_eq_left (Nat.le_succ _)
      rw [hmin]
      exact map_range_eq_of_get b (fun i => mem (ptr + i)) hlay.1
    refine ⟨hderef, rfl, ?_⟩
    rw [hderef]
    simp
  · simp [MallocString.new, hptr, hb, hv] at hnew

theorem mallocString_view_witness :
    MallocString.deref { data := { ptr := 5, len := 4 } }
        (fun a => [104, 101, 121].getD (a - 5) 0) = [104, 101, 121] ∧
    (4 : Nat) = [104, 101, 121].length + 1 := by
  have h := mallocString_view (fun a => [104, 101, 121].getD (a - 5) 0)
    5 4 [104, 101, 121] { data := { ptr := 5, len := 4 } } (by decide)
    (by decide) (by decide) (by decide)
  exact ⟨h.1, by decide⟩

/-- Claim C9: every successfully constructed Owned Text has an internal
owned length of at least 1, so the index `len - 1` taken by the view does
not underflow (`len - 1 + 1 = len`) and the slice `[..len - 1]` is within
the bounds of the `len`-element deref slice of `data`: the view cannot
panic. -/
theorem mallocString_deref_no_panic (fuel : Nat) (mem : Nat → Nat)
    (ptr : Nat) (s : MallocString)
    (h : MallocString.new fuel mem ptr = some s) :
    1 ≤ s.data.len ∧ s.data.len - 1 + 1 = s.data.len ∧
    (s.data.deref mem).length = s.data.len ∧
    (s.deref mem).length = s.data.len - 1 := by
  by_cases hptr : ptr = 0
  · simp [MallocString.new, hptr] at h
  · by_cases hv : validUtf8 (cstrBytes mem ptr fuel)
    · have hs : s =
          { data :=
            { ptr := ptr, len := (cstrBytes mem ptr fuel).length + 1 } } := by
        simp [MallocString.new, hptr, hv] at h
        exact h.symm
      subst hs
      refine ⟨by simp, by simp, by simp [MallocBuffer.deref], ?_⟩
      simp [MallocString.deref, MallocBuffer.deref]
    · simp [MallocString.new, hptr, hv] at h

theorem mallocString_deref_no_panic_witness :
    1 ≤ (4 : Nat) ∧
    (MallocString.deref { data := { ptr := 5, len := 4 } }
        (fun a => [104, 101, 121].getD (a - 5) 0)).length = 3 := by
  have h := mallocString_deref_no_panic 4
    (fun a => [104, 101, 121].getD (a - 5) 0) 5
    { data := { ptr := 5, len := 4 } } (by decide)
  exact ⟨h.1, h.2.2.2⟩

/-- Claim C8: the Owned Cell specialization (modelled from the spec, as it
is absent from src): construction always succeeds with no validation,
recording the address; the view returns the single owned value; release
runs the value's destructor in place and then frees the backing
allocation, exactly one deallocation call. -/
theorem malloc_cell_spec (T : Type) (ptr : Nat) (mem : Nat → T) :
    Malloc.new T ptr = { ptr := ptr } ∧
    (Malloc.new T ptr).deref mem = mem ptr ∧
    (Malloc.new T ptr).drop mem =
      [Event.destroy 0 (mem ptr), Event.free ptr] ∧
    ((Malloc.new T ptr).drop mem).filter Event.isFree =
      [Event.free ptr] := by
  refine ⟨rfl, rfl, rfl, ?_⟩
  simp [Malloc.new, Malloc.drop, List.filter, Event.isFree,
    Event.isDestroy]

end MallocBuf
